import Mathlib

/-!
Shallow embedding of `src/common/vector.py` (puzzle-bot): the border raster,
the boundary walk, close-point merging, side extraction and validation, the
spoke-angle corner-candidate generator, and piece comparison.

Machine floats are modelled by exact rationals; the float constant `math.pi`
is modelled by the exact rational value of the IEEE-754 double Python uses.
Functions of the repository that are not among the staged sources
(`common/util.py`, `common/sides.py`) are modelled from the specification;
each such definition carries a doc comment that says so, and quantities the
specification leaves abstract (tangent fits, transcendental angles, the
external side-fit error) are taken as explicit function parameters so every
theorem holds for every realisation of them.
-/

namespace Puzzle

/-- Decidable equality of `Except` results, so concrete runs evaluate. -/
instance {ε α : Type} [DecidableEq ε] [DecidableEq α] : DecidableEq (Except ε α)
  | .ok a, .ok b => by
    cases h : decide (a = b) with
    | true => exact isTrue (by simp_all)
    | false => exact isFalse (by simp_all)
  | .ok _, .error _ => isFalse (by simp)
  | .error _, .ok _ => isFalse (by simp)
  | .error e, .error f => by
    cases h : decide (e = f) with
    | true => exact isTrue (by simp_all)
    | false => exact isFalse (by simp_all)

/-! ## Pixel grids and the border raster (`find_border_raster`, lines 123-138) -/

/-- A binary pixel grid as `Vector.__init__` stores it: `pixels[y][x]` plus
explicit `width` and `height` fields. -/
structure Grid where
  pixels : List (List Nat)
  width : Nat
  height : Nat
deriving DecidableEq

/-- The read `self.pixels[y][x]` (grids are read within bounds; an
out-of-bounds read defaults to 0, which the embedding never relies on). -/
def pixelAt (g : Grid) (y x : Nat) : Nat := (g.pixels.getD y []).getD x 0

/-- The value `find_border_raster` leaves at `border[y][x]`: the double loop
runs `y` over `range(1, height-1)` and `x` over `range(1, width-1)`, skips
background pixels (`v == 0`), and writes 1 when not all four von Neumann
neighbours are foreground (`not all(neighbors)`); every cell the loop does not
reach keeps its initial 0. -/
def borderFlag (g : Grid) (y x : Nat) : Nat :=
  if 1 ≤ y ∧ y + 1 < g.height ∧ 1 ≤ x ∧ x + 1 < g.width ∧ pixelAt g y x ≠ 0 ∧
      (pixelAt g (y - 1) x = 0 ∨ pixelAt g (y + 1) x = 0 ∨
       pixelAt g y (x - 1) = 0 ∨ pixelAt g y (x + 1) = 0) then 1 else 0

/-- `find_border_raster` (lines 123-138): the full border mask, row-major. -/
def find_border_raster (g : Grid) : List (List Nat) :=
  (List.range g.height).map fun y => (List.range g.width).map fun x => borderFlag g y x

/-- Number of 1-entries of the border mask (all entries are 0 or 1). -/
def borderCount (g : Grid) : Nat := ((find_border_raster g).map List.sum).sum

/-! ## The boundary walk (`vectorize`, lines 140-206)

Python indexing `l[i]` admits negative indices (wrapping once from the end)
and raises `IndexError` otherwise; `pyIndex` returns `none` exactly where
Python would raise.  The heading `p_angle` only ever holds `atan2(dy, dx)`
for a move `(dx, dy)` of the 8-neighbourhood, i.e. an exact multiple
`d * pi/4`; the sweep start `shift = int(round(p_angle * 8 / (2*pi)))` is then
exactly the integer `d`, so the embedding stores the integer `d` in place of
the float heading.  `rel_angle` is computed by the source but never used. -/

abbrev Px := Int × Int

/-- Python list indexing: a negative index counts from the end once; an index
out of range is an error (`none`). -/
def pyIndex {α : Type} (l : List α) (i : Int) : Option α :=
  let j := if i < 0 then (l.length : Int) + i else i
  if 0 ≤ j then l.get? j.toNat else none

/-- The read `self.border[ny][nx]` of the walk. -/
def borderVal (b : List (List Nat)) (x y : Int) : Option Nat :=
  (pyIndex b y).bind fun row => pyIndex row x

/-- The `neighbors` list of the walk (lines 164-174): clockwise from above. -/
def neighborOffsets : List Px :=
  [(0, -1), (1, -1), (1, 0), (1, 1), (0, 1), (-1, 1), (-1, 0), (-1, -1)]

/-- The octant code of a unit move: the integer `d` with
`atan2(dy, dx) = d * pi/4`, `d` in `(-4, 4]`, as the float heading stores it. -/
def dirCode (o : Px) : Int :=
  if o = (1, 0) then 0
  else if o = (1, 1) then 1
  else if o = (0, 1) then 2
  else if o = (-1, 1) then 3
  else if o = (-1, 0) then 4
  else if o = (-1, -1) then -3
  else if o = (0, -1) then -2
  else -1

/-- How a run of `vectorize` can fail: no border pixel at all (line 156), no
qualifying neighbour at some step (line 204, the stuck exception), an
out-of-range border access, or exhaustion of the fuel bound of the embedding
(the Python loop is unbounded). -/
inductive WErr where
  | noBorder
  | stuck
  | indexErr
  | fuelOut
deriving DecidableEq

/-- The neighbour scan order `neighbors[i % 8]` for `i` in
`range(0 + shift, 8 + shift)` (line 183). -/
def scanKs (shift : Int) : List Nat :=
  (List.range 8).map fun i => ((shift + (i : Int)) % 8).toNat

/-- The inner `for` loop of one walk step (lines 183-201): the first neighbour
in sweep order whose border value reads 1 is the move; reading 0 continues the
sweep; an unreadable cell is Python raising `IndexError`. Returns the new
position and its octant code. -/
def scanGo (b : List (List Nat)) (cx cy : Int) : List Nat → Except WErr (Option (Px × Int))
  | [] => .ok none
  | k :: rest =>
    let o := neighborOffsets.getD k (0, 0)
    match borderVal b (cx + o.1) (cy + o.2) with
    | none => .error .indexErr
    | some n =>
      if n = 1 then .ok (some ((cx + o.1, cy + o.2), dirCode o))
      else scanGo b cx cy rest

/-- The `while not closed` loop of `vectorize` (lines 162-204): each step
appends the current position to `self.vertices` before moving (line 195),
raises the stuck exception when the sweep found no move (`bx == cx` and
`by == cy`, line 203), and closes when the move lands on the start. -/
def walk (b : List (List Nat)) (sx sy : Int) :
    Nat → Int → Int → Int → List Px → Except WErr (List Px)
  | 0, _, _, _, _ => .error .fuelOut
  | fuel + 1, cx, cy, d, acc =>
    match scanGo b cx cy (scanKs d) with
    | .error e => .error e
    | .ok none => .error .stuck
    | .ok (some ((nx, ny), d2)) =>
      let acc2 := acc ++ [(cx, cy)]
      if nx = sx ∧ ny = sy then .ok acc2
      else walk b sx sy fuel nx ny d2 acc2

/-- Index of the first entry equal to 1 (`row.index(1)` guarded by
`any(row)`; border rows only hold 0 and 1, where the two coincide). -/
def firstOne : List Nat → Option Nat
  | [] => none
  | v :: rest => if v = 1 then some 0 else (firstOne rest).map (· + 1)

/-- The start-pixel scan of `vectorize` (lines 149-153): the first row holding
a 1, and the first 1 of that row. -/
def findStart : List (List Nat) → Nat → Option (Nat × Nat)
  | [], _ => none
  | row :: rest, y =>
    match firstOne row with
    | some x => some (x, y)
    | none => findStart rest (y + 1)

/-- `vectorize` (lines 140-206), fuel-bounded: build the border raster, find
the start pixel, and run the walk from it with initial heading 0 and
`self.vertices = [(sx, sy)]`.  The closing centroid computation (line 206)
does not affect the vertex list and is not part of this embedding. -/
def vectorize (g : Grid) (fuel : Nat) : Except WErr (List Px) :=
  let b := find_border_raster g
  match findStart b 0 with
  | none => .error .noBorder
  | some (sx, sy) => walk b (sx : Int) (sy : Int) fuel (sx : Int) (sy : Int) 0 [((sx : Int), (sy : Int))]

/-- Two pixels within a king move of each other (equality allowed). Every
consecutive pair of walk vertices satisfies this. -/
def adjacent (a b : Px) : Prop := |a.1 - b.1| ≤ 1 ∧ |a.2 - b.2| ≤ 1

instance (a b : Px) : Decidable (adjacent a b) := by unfold adjacent; infer_instance

/-- The interiority a border-mask 1 forces on its coordinates, as integers. -/
def interiorPos (g : Grid) (p : Px) : Prop :=
  1 ≤ p.1 ∧ p.1 + 1 < (g.width : Int) ∧ 1 ≤ p.2 ∧ p.2 + 1 < (g.height : Int) ∧
    borderFlag g p.2.toNat p.1.toNat = 1

/-! ## Points, merging, simplification (`merge_close_points`, lines 208-223) -/

abbrev Pt := ℚ × ℚ

/-- Squared Euclidean distance; exact in the rationals. -/
def dist2 (a b : Pt) : ℚ := (a.1 - b.1) ^ 2 + (a.2 - b.2) ^ 2

/-- Modelled from the spec: `util.midpoint` is the coordinate-wise midpoint of
two points. -/
def midpoint (a b : Pt) : Pt := ((a.1 + b.1) / 2, (a.2 + b.2) / 2)

/-- Modelled from the spec: `util.polyline_length` is the sum of consecutive
segment lengths, the segment length given by the distance parameter. -/
def polyline_length (dist : Pt → Pt → ℚ) : List Pt → ℚ
  | a :: b :: rest => dist a b + polyline_length dist (b :: rest)
  | _ => 0

/-- The point at distance `t` along a polyline, measured by `dist`,
interpolating linearly inside the segment where that distance falls (the
last vertex when the polyline runs out). -/
def pointAtLength (dist : Pt → Pt → ℚ) : List Pt → ℚ → Pt
  | [], _ => (0, 0)
  | [p], _ => p
  | p :: q :: rest, t =>
    let L := dist p q
    if t ≤ L then
      if L = 0 then p
      else (p.1 + t / L * (q.1 - p.1), p.2 + t / L * (q.2 - p.2))
    else pointAtLength dist (q :: rest) (t - L)

/-- Modelled from the spec: `util.midpoint_along_path(path, a, b)` returns the
point at half the cumulative path length between `a` and `b` walking along
the path - not the straight-line midpoint. The stretch walked is the
sub-polyline of `path` between the positions of `a` and `b` (located by
first occurrence; every concrete run below has distinct vertices): for two
consecutive vertices that is the single connecting segment, whose half-length
point is the chord midpoint, while for the two ends of the list - the
wrap-around pair of the merge - it is the whole polyline, whose half-length
point lies mid-polyline. Lengths are measured by the distance parameter that
stands for `util.distance`. -/
def midpoint_along_path (dist : Pt → Pt → ℚ) (path : List Pt) (a b : Pt) : Pt :=
  let i := path.indexOf a
  let j := path.indexOf b
  let sub := if i ≤ j then (path.drop i).take (j - i + 1)
             else (path.drop j).take (i - j + 1)
  pointAtLength dist sub (polyline_length dist sub / 2)

/-- The loop body of `merge_close_points` (lines 208-223), fuel-indexed.
The source starts `i = -len(vs)` and immediately normalises `i = i % len(vs)`
inside the loop, so the scan effectively starts at 0; `j = (i+1) % len`
wraps the final pair around to the front. A close pair is replaced by its
path midpoint, written at `i`, with the entry at `j` popped; when the
midpoint equals the later point the earlier point is kept (the comment of
line 216). `dist` stands for `util.distance` (Euclidean, irrational in
general, hence a parameter). `none` means the fuel ran out, which
`mergeLoop_isSome` below rules out for the fuel `merge_close_points` passes. -/
def mergeLoop (dist : Pt → Pt → ℚ) (threshold : ℚ) :
    Nat → List Pt → Nat → Option (List Pt)
  | 0, _, _ => none
  | fuel + 1, vs, i =>
    if i < vs.length then
      let j := (i + 1) % vs.length
      let a := vs.getD i (0, 0)
      let b := vs.getD j (0, 0)
      if dist a b ≤ threshold then
        let m0 := midpoint_along_path dist vs a b
        let m := if m0 = b then a else m0
        mergeLoop dist threshold fuel ((vs.set i m).eraseIdx j) i
      else
        mergeLoop dist threshold fuel vs (i + 1)
    else some vs

/-- `merge_close_points` (lines 208-223): run the loop from `i = 0` with fuel
that provably suffices (each iteration either advances `i` or shortens the
list). -/
def merge_close_points (dist : Pt → Pt → ℚ) (vs : List Pt) (threshold : ℚ) : List Pt :=
  (mergeLoop dist threshold (2 * vs.length + 2) vs 0).getD vs

/-- Squared perpendicular distance of `p` from the line through `a` and `b`
(squared distance to `a` when the two coincide); exact in the rationals. -/
def perpDist2 (a b p : Pt) : ℚ :=
  if a = b then dist2 a p
  else ((b.1 - a.1) * (p.2 - a.2) - (b.2 - a.2) * (p.1 - a.1)) ^ 2 / dist2 a b

/-- Modelled from the spec: `util.ramer_douglas_peucker` is the standard
recursive polyline simplification, which preserves the first and last input
point exactly: find the interior point farthest (here by squared perpendicular
distance, an order-equivalent measure) from the end-to-end chord; if it
exceeds epsilon, split there and recurse, else keep only the endpoints. The
fuel equals the input length, which the shrinking sublists never exhaust. -/
def rdpFuel (eps2 : ℚ) : Nat → List Pt → List Pt
  | 0, l => l
  | fuel + 1, l =>
    if l.length ≤ 2 then l
    else
      let a := l.headD (0, 0)
      let b := l.getLastD (0, 0)
      let best := ((List.range (l.length - 2)).map (· + 1)).foldl
        (fun acc i =>
          let d := perpDist2 a b (l.getD i (0, 0))
          if d > acc.2 then (i, d) else acc) (0, -1)
      if best.2 > eps2 then
        (rdpFuel eps2 fuel (l.take (best.1 + 1))).dropLast ++ rdpFuel eps2 fuel (l.drop best.1)
      else [a, b]

/-- Modelled from the spec: see `rdpFuel`. -/
def ramer_douglas_peucker (pts : List Pt) (eps : ℚ) : List Pt :=
  rdpFuel (eps ^ 2) pts.length pts

/-- Modelled from the spec: `util.slice(seq, a, b)` is the cyclic sub-sequence
from index `a` to index `b` inclusive, every index reduced modulo the
length (negative and out-of-range indices wrap). -/
def slice (seq : List Pt) (a b : Int) : List Pt :=
  if seq.length = 0 then []
  else
    let n := ((b - a) % (seq.length : Int)).toNat + 1
    (List.range n).map fun k => seq.getD ((a + (k : Int)) % (seq.length : Int)).toNat (0, 0)

/-! ## Sides and `extract_four_sides` (lines 458-524) -/

/-- The per-side record of the external `sides.Side` class. Modelled from the
spec: `common/sides.py` is not among the staged sources, so the two derived
scalar attributes the validation reads - `angle` (overall direction) and
`len` (total length) - are filled from abstract attribute functions the
embedding is parameterised over, while `segment` is the endpoint-to-endpoint
pair the spec describes and `is_edge` is computed by `extract_four_sides`
itself. -/
structure Side where
  vertices : List Pt
  piece_center : Pt
  is_edge : Bool
  angle : ℚ
  len : ℚ
  segment : Pt × Pt
deriving DecidableEq

/-- The `sides.Side(...)` constructor call of line 487, with the two derived
scalars taken from the abstract attribute functions. -/
def mkSide (sideAngle sideLen : List Pt → ℚ) (vs : List Pt) (center : Pt) (edge : Bool) : Side :=
  { vertices := vs, piece_center := center, is_edge := edge,
    angle := sideAngle vs, len := sideLen vs,
    segment := (vs.headD (0, 0), vs.getLastD (0, 0)) }

/-- The ways `extract_four_sides` raises (lines 477, 491-524), plus the
`IndexError` Python raises at `vertices[0]` when merging emptied a side. -/
inductive ValErr where
  | indexErr
  | countErr
  | par02
  | par13
  | ortho
  | lenRatio
  | aspect
  | edgeCount
  | edgePair
deriving DecidableEq

/-- The exact rational value of the IEEE-754 double `math.pi`. -/
def mathPi : ℚ := 884279719003555 / 281474976710656

/-- The near-square aspect check exactly as the source computes it (lines
514-517): both `d02` and `d13` are `util.distance_between_segments` of
`self.sides[0].segment` and `self.sides[2].segment` - `sides[1]`/`sides[3]`
are never read - and the check fires when the two differ by more than a
1.35 ratio. `dseg` stands for `util.distance_between_segments`. -/
def aspect_check_fires (dseg : Pt × Pt → Pt × Pt → ℚ) (s0 s2 : Side) : Bool :=
  let d02 := dseg s0.segment s2.segment
  let d13 := dseg s0.segment s2.segment
  decide (d02 > 27/20 * d13 ∨ d13 > 27/20 * d02)

/-- The aspect check as the words of the spec describe it (refinement target,
not the source): `d02` between sides 0 and 2, `d13` between sides 1 and 3. -/
def aspect_check_spec (dseg : Pt × Pt → Pt × Pt → ℚ) (s0 s1 s2 s3 : Side) : Bool :=
  let d02 := dseg s0.segment s2.segment
  let d13 := dseg s1.segment s3.segment
  decide (d02 > 27/20 * d13 ∨ d13 > 27/20 * d02)

/-- The validation chain of `extract_four_sides` (lines 490-524), in source
order: side count, parallelism of sides 0-2 then 1-3 (threshold
`SIDE_PARALLEL_THRESHOLD_DEG = 32`), orthogonality of sides 0-1 (the source
subtracts `90 * pi/180` radians yet compares against the degree threshold 50,
kept as written), opposite length ratios (0.55), the near-square aspect
check, and the edge-count rules. -/
def validate_sides (dseg : Pt × Pt → Pt × Pt → ℚ) (sides : List Side) : Except ValErr Unit :=
  match sides with
  | [s0, s1, s2, s3] =>
    if |s0.angle - s2.angle| > 32 then .error .par02
    else if |s1.angle - s3.angle| > 32 then .error .par13
    else if |s1.angle - s0.angle - 90 * mathPi / 180| > 50 then .error .ortho
    else if |s0.len - s2.len| / ((s0.len + s2.len) / 2) > 11/20 ∨
            |s1.len - s3.len| / ((s1.len + s3.len) / 2) > 11/20 then .error .lenRatio
    else if aspect_check_fires dseg s0 s2 then .error .aspect
    else if ([s0, s1, s2, s3].countP (·.is_edge)) > 2 then .error .edgeCount
    else if ([s0, s1, s2, s3].countP (·.is_edge)) = 2 ∧
            ((s0.is_edge ∧ s2.is_edge) ∨ (s1.is_edge ∧ s3.is_edge)) then .error .edgePair
    else .ok ()
  | _ => .error .countErr

/-- One iteration of the extraction loop (lines 465-488): slice the boundary
between the two corner indices, simplify with epsilon 0.25, merge points
closer than `MERGE_IF_CLOSER_THAN_PX = 1.75`, force the corner endpoints back
on (inserting or appending when simplification dropped them), classify the
side as an edge when polyline length over corner-to-corner distance is below
1.1, and build the `Side`. Python raises `IndexError` at `vertices[0]` when
the merge emptied the list. -/
def buildSide (dist : Pt → Pt → ℚ) (sideAngle sideLen : List Pt → ℚ)
    (vertices : List Pt) (center : Pt) (ci cj : Int) (pA pB : Pt) :
    Except ValErr Side :=
  let vs1 := ramer_douglas_peucker (slice vertices ci cj) (1/4)
  let vs2 := merge_close_points dist vs1 (7/4)
  match vs2 with
  | [] => .error .indexErr
  | v0 :: _ =>
    let vs3 := if v0 ≠ pA then pA :: vs2 else vs2
    let vs4 := if vs3.getLastD pA ≠ pB then vs3 ++ [pB] else vs3
    let ccd := dist (vs4.headD pA) (vs4.getLastD pA)
    let plen := polyline_length dist vs4
    .ok (mkSide sideAngle sideLen vs4 center (decide (plen / ccd < 11/10)))

/-- `extract_four_sides` (lines 458-524): build the four sides between
consecutive corners (`j = (i+1) % 4`), then run the validation chain;
returns the four sides when nothing raised. -/
def extract_four_sides (dist : Pt → Pt → ℚ) (sideAngle sideLen : List Pt → ℚ)
    (dseg : Pt × Pt → Pt × Pt → ℚ) (vertices : List Pt) (center : Pt)
    (corner_indices : Fin 4 → Int) (corners : Fin 4 → Pt) :
    Except ValErr (List Side) := do
  let s0 ← buildSide dist sideAngle sideLen vertices center (corner_indices 0) (corner_indices 1)
    (corners 0) (corners 1)
  let s1 ← buildSide dist sideAngle sideLen vertices center (corner_indices 1) (corner_indices 2)
    (corners 1) (corners 2)
  let s2 ← buildSide dist sideAngle sideLen vertices center (corner_indices 2) (corner_indices 3)
    (corners 2) (corners 3)
  let s3 ← buildSide dist sideAngle sideLen vertices center (corner_indices 3) (corner_indices 0)
    (corners 3) (corners 0)
  match validate_sides dseg [s0, s1, s2, s3] with
  | .error e => .error e
  | .ok _ => .ok [s0, s1, s2, s3]

/-! ## Spoke-angle corner candidates
(`find_corner_candidates_by_spoke_angles`, lines 246-311) -/

/-- A corner hypothesis as the generator emits it (the other `Candidate`
attributes keep their defaults there and play no part in the claims). -/
structure Candidate where
  v : Pt
  i : Nat
  angle : ℚ
  offset_from_center : ℚ
deriving DecidableEq

/-- Modelled from the spec: the geometric primitives of `common/util.py` and
the float library functions the generator reads, left abstract (their values
are irrational in general): `colinearity` returns a best-fit direction and a
residual dispersion, `counterclockwise_angle_between_vectors` the interior
angle at the middle point, `angle_between` the direction of one point toward
another, `compare_angles` the absolute angular difference, and `cosF`/`sinF`
stand for `math.cos`/`math.sin`. -/
structure GeomFns where
  colinearity : Pt → List Pt → ℚ × ℚ
  counterclockwise_angle_between_vectors : Pt → Pt → Pt → ℚ
  angle_between : Pt → Pt → ℚ
  compare_angles : ℚ → ℚ → ℚ
  cosF : ℚ → ℚ
  sinF : ℚ → ℚ

/-- The quantities the generator computes at boundary index `i` (lines
261-296), in dataflow order: mean residual dispersion of the two tangent
fits over the windows `slice(i-13, i-2)` and `slice(i+2, i+13)` (from
`vec_offset = 1`, `vec_len = 12`); the interior angle `angle_hij` between the
two points projected 10 units along the fitted tangents; and the angular
offset between the opening direction (toward the midpoint of the two
projected points) and the direction to the centroid. All are pure, so
computing them before the guards is equivalent to the interleaved source. -/
def spoke_measure (o : GeomFns) (vertices : List Pt) (centroid : Pt) (i : Nat) : ℚ × ℚ × ℚ :=
  let p_i := vertices.getD i (0, 0)
  let ch := o.colinearity p_i (slice vertices ((i : Int) - 13) ((i : Int) - 2))
  let cj := o.colinearity p_i (slice vertices ((i : Int) + 2) ((i : Int) + 13))
  let p_h : Pt := (p_i.1 + 10 * o.cosF ch.1, p_i.2 + 10 * o.sinF ch.1)
  let p_j : Pt := (p_i.1 + 10 * o.cosF cj.1, p_i.2 + 10 * o.sinF cj.1)
  let angle_hij := o.counterclockwise_angle_between_vectors p_h p_i p_j
  let a_ic := o.angle_between p_i centroid
  let opens_toward := o.angle_between p_i (midpoint p_h p_j)
  ((ch.2 + cj.2) / 2, angle_hij, o.compare_angles opens_toward a_ic)

/-- The decision at one boundary index (lines 268, 284-288, 296-304): skip
when the mean dispersion exceeds 0.2; skip when the interior angle is not
within `SIDES_ORTHOGONAL_THRESHOLD_DEG = 50` degrees of 90; emit a candidate
exactly when the offset is strictly less than half the interior angle. The
float literal 0.2 is modelled by 1/5 (the claims quote the same constant, so
nothing below depends on the last bits of its binary value). -/
def spoke_candidate (o : GeomFns) (vertices : List Pt) (centroid : Pt) (i : Nat) :
    Option Candidate :=
  let m := spoke_measure o vertices centroid i
  if m.1 > 1/5 then none
  else if ¬ (|mathPi / 2 - m.2.1| < 50 * mathPi / 180) then none
  else if m.2.2 < m.2.1 / 2 then some ⟨vertices.getD i (0, 0), i, m.2.1, m.2.2⟩
  else none

/-- `find_corner_candidates_by_spoke_angles` (lines 246-311): the loop over
all boundary indices, collecting the emitted candidates (the debug prints
keyed on a literal coordinate change nothing). -/
def find_corner_candidates_by_spoke_angles (o : GeomFns) (vertices : List Pt) (centroid : Pt) :
    List Candidate :=
  (List.range vertices.length).filterMap (spoke_candidate o vertices centroid)

/-! ## Piece comparison (`compare`, lines 556-576) -/

/-- One alignment of `compare` (lines 564-572): `p0_side_i = (p1_side_i +
start_i) % 4`, the pairwise errors summed left to right, `None` short-circuit
preserved by the option bind. `errF` stands for the external
`Side.error_when_fit_with` with its constant `flip=False, render=False`
arguments dropped; modelled from the spec as an abstract function into an
error value or the no-fit sentinel. -/
def alignment_error (errF : Side → Side → Option ℚ) (selfSides pieceSides : Fin 4 → Side)
    (start_i : Fin 4) : Option ℚ :=
  (List.finRange 4).foldl
    (fun acc p1 =>
      acc.bind fun s => (errF (selfSides (p1 + start_i)) (pieceSides p1)).map fun e => s + e)
    (some 0)

/-- The minimum update of `compare` (lines 574-575):
`if min is None or (cum is not None and cum < min): min = cum`. -/
def compareStep (errF : Side → Side → Option ℚ) (selfSides pieceSides : Fin 4 → Side)
    (m : Option ℚ) (start_i : Fin 4) : Option ℚ :=
  match m, alignment_error errF selfSides pieceSides start_i with
  | none, c => c
  | some mv, none => some mv
  | some mv, some cv => if cv < mv then some cv else some mv

/-- `compare` (lines 556-576): fold the four alignments through the update. -/
def compare (errF : Side → Side → Option ℚ) (selfSides pieceSides : Fin 4 → Side) : Option ℚ :=
  (List.finRange 4).foldl (compareStep errF selfSides pieceSides) none

/-- Definition following the words of the spec (refinement target): the
minimum of the defined totals, or `none` when every total is undefined. -/
def minTotal : List (Option ℚ) → Option ℚ
  | [] => none
  | none :: rest => minTotal rest
  | some v :: rest =>
    match minTotal rest with
    | none => some v
    | some w => some (min v w)

/-! ## Concrete instances the witnesses and counterexamples evaluate -/

/-- A 4 by 4 grid holding an interior 2 by 2 foreground block: a closed,
simply connected region away from the image boundary, with 4 border pixels. -/
def g4 : Grid := ⟨[[0, 0, 0, 0], [0, 1, 1, 0], [0, 1, 1, 0], [0, 0, 0, 0]], 4, 4⟩

/-- A 5 by 4 grid whose foreground strip occupies rows 0-2, columns 1-3:
the contour touches row 0, and the border mask is an open U shape. -/
def gU : Grid := ⟨[[0, 1, 1, 1, 0], [0, 1, 1, 1, 0], [0, 1, 1, 1, 0], [0, 0, 0, 0, 0]], 5, 4⟩

/-- A 3 by 3 grid with a background centre: every rim pixel is foreground
with a background 4-neighbour, yet none is interior. -/
def gB : Grid := ⟨[[1, 1, 1], [1, 0, 1], [1, 1, 1]], 3, 3⟩

/-- The vertex loop `vectorize` produces on `g4`. -/
def c4loop : List Px := [(1, 1), (1, 1), (2, 1), (2, 2), (1, 2)]

/-- Taxicab distance. On points sharing one axis line - every concrete merge
example below lies on the x-axis - it coincides with the Euclidean distance,
so on those inputs it is an exact model of `util.distance`. -/
def distL1 (a b : Pt) : ℚ := |a.1 - b.1| + |a.2 - b.2|

/-- A side whose stored segment is the given endpoint pair (the remaining
attributes are immaterial to the aspect check). -/
def segSide (seg : Pt × Pt) : Side :=
  { vertices := [seg.1, seg.2], piece_center := (0, 0), is_edge := false,
    angle := 0, len := 1, segment := seg }

def c1s0 : Side := segSide ((0, 0), (0, 1))

def c1s1 : Side := segSide ((0, 0), (10, 0))

def c1s2 : Side := segSide ((10, 0), (10, 1))

def c1s3 : Side := segSide ((0, 1), (10, 1))

/-- Distance between the first endpoints of two segments, taxicab. For the
four axis-aligned `c1` segments above this equals the true minimum distance
between the opposite segments: 10 between sides 0 and 2, 1 between sides 1
and 3. -/
def dsegStart (p q : Pt × Pt) : ℚ := |p.1.1 - q.1.1| + |p.1.2 - q.1.2|

/-- An 8-vertex zig-zag boundary for the `extract_four_sides` witness. -/
def wVerts : List Pt :=
  [(0, 0), (1, 9), (2, 0), (3, 9), (4, 0), (5, 9), (6, 0), (7, 9)]

def wCorners : Fin 4 → Pt := fun i => ([(0, 0), (2, 0), (4, 0), (6, 0)] : List Pt).getD i.val (0, 0)

def wIdx : Fin 4 → Int := fun i => ([0, 2, 4, 6] : List Int).getD i.val 0

/-- A constant distance above the merge threshold, so no witness point merges. -/
def dist2c : Pt → Pt → ℚ := fun _ _ => 2

def angle0 : List Pt → ℚ := fun _ => 0

def len1 : List Pt → ℚ := fun _ => 1

def dseg1 : Pt × Pt → Pt × Pt → ℚ := fun _ _ => 1

/-- The four sides `extract_four_sides` builds from the witness data. -/
def wSides : List Side :=
  [ { vertices := [(0, 0), (1, 9), (2, 0)], piece_center := (0, 0), is_edge := false,
      angle := 0, len := 1, segment := ((0, 0), (2, 0)) },
    { vertices := [(2, 0), (3, 9), (4, 0)], piece_center := (0, 0), is_edge := false,
      angle := 0, len := 1, segment := ((2, 0), (4, 0)) },
    { vertices := [(4, 0), (5, 9), (6, 0)], piece_center := (0, 0), is_edge := false,
      angle := 0, len := 1, segment := ((4, 0), (6, 0)) },
    { vertices := [(6, 0), (7, 9), (0, 0)], piece_center := (0, 0), is_edge := false,
      angle := 0, len := 1, segment := ((6, 0), (0, 0)) } ]

/-- A geometric oracle under which index 0 of a one-vertex loop passes all
three spoke guards. -/
def o0 : GeomFns :=
  { colinearity := fun _ _ => (0, 0),
    counterclockwise_angle_between_vectors := fun _ _ _ => mathPi / 2,
    angle_between := fun _ _ => 0,
    compare_angles := fun _ _ => 0,
    cosF := fun _ => 1,
    sinF := fun _ => 0 }

/-! # Theorems -/

/-! ## The border raster -/

/-- An entry of the built mask, read within bounds, is the flag value. -/
theorem border_entry (g : Grid) (x y : Nat) (hx : x < g.width) (hy : y < g.height) :
    ((find_border_raster g).getD y []).getD x 0 = borderFlag g y x := by
  unfold find_border_raster
  have h1 : (List.map (fun y => List.map (fun x => borderFlag g y x) (List.range g.width))
      (List.range g.height)).getD y [] =
      List.map (fun x => borderFlag g y x) (List.range g.width) := by
    rw [List.getD_eq_getElem?_getD, List.getElem?_map, List.getElem?_range hy]
    simp
  rw [h1, List.getD_eq_getElem?_getD, List.getElem?_map, List.getElem?_range hx]
  simp

/-- C3 (amended): the border mask is 1 at a coordinate exactly when the
coordinate is strictly interior to the grid and the pixel is foreground with
at least one background 4-neighbour; the scan of `find_border_raster` never
writes to row 0, column 0, the last row or the last column, so there the mask
is always 0 and the unrestricted claim fails (see
`c3_boundary_pixel_missed`). -/
theorem c3_border_characterization (g : Grid) (x y : Nat) (hx : x < g.width)
    (hy : y < g.height) :
    ((find_border_raster g).getD y []).getD x 0 = 1 ↔
      ((1 ≤ y ∧ y + 1 < g.height ∧ 1 ≤ x ∧ x + 1 < g.width) ∧ pixelAt g y x ≠ 0 ∧
        (pixelAt g (y - 1) x = 0 ∨ pixelAt g (y + 1) x = 0 ∨
         pixelAt g y (x - 1) = 0 ∨ pixelAt g y (x + 1) = 0)) := by
  rw [border_entry g x y hx hy]
  unfold borderFlag
  split
  · rename_i h
    exact iff_of_true rfl (by tauto)
  · rename_i h
    exact iff_of_false (by simp) (fun hc => h (by tauto))

/-- C3 witness at the interior coordinate (x, y) = (1, 1) of `g4`. -/
theorem c3_border_characterization_witness :
    ((find_border_raster g4).getD 1 []).getD 1 0 = 1 :=
  (c3_border_characterization g4 1 1 (by decide) (by decide)).mpr (by decide)

/-- C3 counterexample: in `gB`, the pixel at (x, y) = (1, 0) is foreground and
its 4-neighbour below is background, yet the mask holds 0 there, because the
scan skips row 0. -/
theorem c3_boundary_pixel_missed :
    pixelAt gB 0 1 ≠ 0 ∧ pixelAt gB 1 1 = 0 ∧
      ((find_border_raster gB).getD 0 []).getD 1 0 = 0 := by decide

/-! ## Point merging (`merge_close_points`) -/

/-- The merge loop answers within the fuel `merge_close_points` passes: each
iteration either advances the cursor or shortens the list. -/
theorem mergeLoop_isSome (dist : Pt → Pt → ℚ) (t : ℚ) :
    ∀ (fuel : Nat) (vs : List Pt) (i : Nat), 2 * vs.length - i < fuel →
      (mergeLoop dist t fuel vs i).isSome := by
  intro fuel
  induction fuel with
  | zero => intro vs i h; omega
  | succ n ih =>
    intro vs i h
    rw [mergeLoop]
    dsimp only
    split
    · rename_i hlen
      split
      · apply ih
        have hj : (i + 1) % vs.length < vs.length := Nat.mod_lt _ (by omega)
        rw [List.length_eraseIdx_of_lt (by simpa using hj)]
        simp only [List.length_set]
        omega
      · apply ih; omega
    · simp

/-- C9 (amended): for every vertex list and threshold, `merge_close_points`
terminates - the loop, which examines the wrap-around pair as well and
replaces a close pair by its path midpoint (keeping the earlier point when
the midpoint equals the later one), answers within fuel `2 * length + 2`.
The original postcondition that no adjacent pair closer than the threshold
remains is false: see `c9_close_pair_survives`. -/
theorem c9_merge_terminates (dist : Pt → Pt → ℚ) (vs : List Pt) (t : ℚ) :
    ∃ r, mergeLoop dist t (2 * vs.length + 2) vs 0 = some r ∧
      merge_close_points dist vs t = r := by
  have h := mergeLoop_isSome dist t (2 * vs.length + 2) vs 0 (by omega)
  rcases Option.isSome_iff_exists.mp h with ⟨r, hr⟩
  exact ⟨r, hr, by rw [merge_close_points, hr]; rfl⟩

/-- C9 counterexample: on five collinear points (where `distL1` is exactly
the Euclidean distance) with threshold 1.75, merging the pair at indices 1, 2
moves the point at index 1 to (5/4, 0), which now lies 5/4 < 1.75 from its
predecessor (0, 0); the loop never re-examines that earlier pair, so the
returned list keeps two adjacent vertices closer than the threshold. -/
theorem c9_close_pair_survives :
    merge_close_points distL1 [(0, 0), (2, 0), (1/2, 0), (10, 0), (20, 0)] (7/4) =
      [(0, 0), (5/4, 0), (10, 0), (20, 0)] ∧
    distL1 (0, 0) (5/4, 0) < 7/4 := by with_unfolding_all decide

/-- C10: `merge_close_points` examines the wrap-around pair formed by the
last and first vertices: here (1, 0) and (0, 0) lie 1 < 1.75 apart, and the
merge removes the first element of the list and replaces the last with the
path midpoint of the pair - the point at half the cumulative length of the
polyline between the two ends, which on this list (total length 39, every
vertex on the x-axis, where `distL1` is exactly the Euclidean distance) is
(39/2, 0), 9.5 units into the middle segment. -/
theorem c10_wraparound_merge :
    distL1 (1, 0) (0, 0) ≤ 7/4 ∧
    midpoint_along_path distL1 [(0, 0), (10, 0), (20, 0), (1, 0)] (1, 0) (0, 0) = (39/2, 0) ∧
    merge_close_points distL1 [(0, 0), (10, 0), (20, 0), (1, 0)] (7/4) =
      [(10, 0), (20, 0), (39/2, 0)] := by with_unfolding_all decide

/-! ## The validation chain (`extract_four_sides`, lines 490-524) -/

/-- C2: with four extracted sides, the validation raises the parallelism
error exactly when the direction angles of sides 0 and 2, or of sides 1 and
3, differ by more than `SIDE_PARALLEL_THRESHOLD_DEG = 32`; when both
differences are within 32 the parallelism checks pass and control reaches the
later validations. -/
theorem c2_parallel_check (dseg : Pt × Pt → Pt × Pt → ℚ) (s0 s1 s2 s3 : Side) :
    (validate_sides dseg [s0, s1, s2, s3] = .error .par02 ∨
     validate_sides dseg [s0, s1, s2, s3] = .error .par13) ↔
      (|s0.angle - s2.angle| > 32 ∨ |s1.angle - s3.angle| > 32) := by
  unfold validate_sides
  dsimp only
  split_ifs <;> simp_all

/-- C2 witness: a concrete instance on both sides of the threshold. -/
theorem c2_parallel_check_witness :
    (validate_sides dseg1 [segSide ((0, 0), (0, 1)), c1s1, c1s2, c1s3] = .error .par02 ∨
     validate_sides dseg1 [segSide ((0, 0), (0, 1)), c1s1, c1s2, c1s3] = .error .par13) ↔
      (|(segSide ((0, 0), (0, 1))).angle - c1s2.angle| > 32 ∨
       |c1s1.angle - c1s3.angle| > 32) :=
  c2_parallel_check dseg1 (segSide ((0, 0), (0, 1))) c1s1 c1s2 c1s3

/-- C1: the near-square aspect check as the source computes it can never
fire for a nonnegative segment distance, because line 515 reads
`sides[0]`/`sides[2]` for `d13` as well: the check reduces to comparing a
value with itself, which only exceeds 1.35 times itself when negative.
On the concrete `c1` sides, whose opposite-segment separations are 10
(sides 0-2) and 1 (sides 1-3), the check the spec describes fires while the
code check passes. -/
theorem c1_aspect_copy_paste :
    aspect_check_fires dsegStart c1s0 c1s2 = false ∧
    aspect_check_spec dsegStart c1s0 c1s1 c1s2 c1s3 = true ∧
    ∀ (dseg : Pt × Pt → Pt × Pt → ℚ) (s0 s2c : Side),
      aspect_check_fires dseg s0 s2c = decide (dseg s0.segment s2c.segment < 0) := by
  refine ⟨by with_unfolding_all decide, by with_unfolding_all decide, ?_⟩
  intro dseg s0 s2c
  unfold aspect_check_fires
  rw [decide_eq_decide]
  constructor
  · rintro (h | h) <;> linarith
  · intro h; left; linarith

/-! ## Piece comparison (`compare`) -/

/-- Folding the minimum update from a defined accumulator takes the minimum
with whatever the remaining alignments define. -/
theorem foldl_compareStep_some (errF : Side → Side → Option ℚ) (a b : Fin 4 → Side) :
    ∀ (l : List (Fin 4)) (m : ℚ),
      l.foldl (compareStep errF a b) (some m) =
        match minTotal (l.map (alignment_error errF a b)) with
        | none => some m
        | some w => some (min m w) := by
  intro l
  induction l with
  | nil => intro m; rfl
  | cons x xs ih =>
    intro m
    simp only [List.foldl_cons, List.map_cons]
    cases hx : alignment_error errF a b x with
    | none =>
      have hstep : compareStep errF a b (some m) x = some m := by
        simp [compareStep, hx]
      rw [hstep, ih]
      simp [minTotal]
    | some cv =>
      have hstep : compareStep errF a b (some m) x = some (min m cv) := by
        rcases lt_or_ge cv m with h | h
        · simp [compareStep, hx, h, min_eq_right h.le]
        · simp [compareStep, hx, not_lt.mpr h, min_eq_left h]
      rw [hstep, ih]
      cases hr : minTotal (xs.map (alignment_error errF a b)) <;>
        simp [minTotal, hr, min_assoc]

/-- Folding the minimum update from the initial `None` accumulator computes
`minTotal` of the alignment totals. -/
theorem foldl_compareStep_none (errF : Side → Side → Option ℚ) (a b : Fin 4 → Side) :
    ∀ l : List (Fin 4),
      l.foldl (compareStep errF a b) none = minTotal (l.map (alignment_error errF a b)) := by
  intro l
  cases l with
  | nil => rfl
  | cons x xs =>
    simp only [List.foldl_cons, List.map_cons]
    cases hx : alignment_error errF a b x with
    | none =>
      have hstep : compareStep errF a b none x = none := by simp [compareStep, hx]
      rw [hstep, foldl_compareStep_none errF a b xs]
      simp [minTotal]
    | some cv =>
      have hstep : compareStep errF a b none x = some cv := by simp [compareStep, hx]
      rw [hstep, foldl_compareStep_some]
      cases hr : minTotal (xs.map (alignment_error errF a b)) <;> simp [minTotal, hr]

/-- The summing fold of one alignment stays undefined once undefined. -/
theorem foldl_bind_none (f : Fin 4 → Option ℚ) :
    ∀ l : List (Fin 4),
      l.foldl (fun acc p1 => acc.bind fun s => (f p1).map fun e => s + e) none = none := by
  intro l
  induction l with
  | nil => rfl
  | cons x xs ih => simpa using ih

/-- The summing fold of one alignment is undefined exactly when some listed
pair has no fit. -/
theorem foldl_bind_none_iff (f : Fin 4 → Option ℚ) :
    ∀ (l : List (Fin 4)) (s : ℚ),
      (l.foldl (fun acc p1 => acc.bind fun s => (f p1).map fun e => s + e) (some s) = none ↔
        ∃ p1 ∈ l, f p1 = none) := by
  intro l
  induction l with
  | nil => intro s; simp
  | cons x xs ih =>
    intro s
    simp only [List.foldl_cons]
    cases hx : f x with
    | none =>
      simp only [Option.map_none', Option.some_bind]
      exact iff_of_true (foldl_bind_none f xs) ⟨x, List.mem_cons_self x xs, hx⟩
    | some v =>
      simp only [Option.map_some', Option.some_bind]
      rw [ih]
      constructor
      · rintro ⟨p1, hp, hnone⟩
        exact ⟨p1, List.mem_cons_of_mem _ hp, hnone⟩
      · rintro ⟨p1, hp, hnone⟩
        rcases List.mem_cons.mp hp with rfl | hp2
        · rw [hx] at hnone; exact absurd hnone (by simp)
        · exact ⟨p1, hp2, hnone⟩

/-- C8: `compare` returns the minimum over the four cyclic alignments of the
summed pairwise side-fit errors; an alignment holding a no-fit pair defines
no total (the sum short-circuits to the sentinel), and `compare` returns the
no-fit sentinel exactly when every alignment holds a no-fit pair. -/
theorem c8_compare_minimum (errF : Side → Side → Option ℚ) (a b : Fin 4 → Side) :
    compare errF a b = minTotal ((List.finRange 4).map (alignment_error errF a b)) ∧
    (compare errF a b = none ↔ ∀ st : Fin 4, alignment_error errF a b st = none) ∧
    (∀ st : Fin 4, alignment_error errF a b st = none ↔
      ∃ p1 : Fin 4, errF (a (p1 + st)) (b p1) = none) := by
  have h1 : compare errF a b = minTotal ((List.finRange 4).map (alignment_error errF a b)) :=
    foldl_compareStep_none errF a b (List.finRange 4)
  have hmt : ∀ l : List (Option ℚ), minTotal l = none ↔ ∀ x ∈ l, x = none := by
    intro l
    induction l with
    | nil => simp [minTotal]
    | cons x xs ih =>
      cases x with
      | none => simp [minTotal, ih]
      | some v => cases hr : minTotal xs <;> simp [minTotal, hr]
  refine ⟨h1, ?_, ?_⟩
  · rw [h1, hmt]
    constructor
    · intro h st
      exact h _ (List.mem_map_of_mem _ (List.mem_finRange st))
    · rintro h x hx
      rcases List.mem_map.mp hx with ⟨st, _, rfl⟩
      exact h st
  · intro st
    have h2 := foldl_bind_none_iff (fun p1 => errF (a (p1 + st)) (b p1)) (List.finRange 4) 0
    simpa [alignment_error, List.mem_finRange] using h2

/-! ## Side extraction: the endpoint-forcing invariant -/

/-- A non-empty list whose `getLastD` is `v` has last element `v`. -/
theorem getLast?_of_getLastD {l : List Pt} {d v : Pt} (hne : l ≠ [])
    (h : l.getLastD d = v) : l.getLast? = some v := by
  obtain ⟨w, hw⟩ := Option.isSome_iff_exists.mp (List.getLast?_isSome.mpr hne)
  rw [List.getLastD_eq_getLast?, hw] at h
  rw [hw]
  simpa using h

/-- When `buildSide` returns a side, the endpoint-forcing step (lines
477-480) has pinned the first vertex to the opening corner and the last
vertex to the closing corner, whatever the slice, the simplification and the
merge produced. -/
theorem buildSide_ok_endpoints (dist : Pt → Pt → ℚ) (sA sL : List Pt → ℚ)
    (vertices : List Pt) (center : Pt) (ci cj : Int) (pA pB : Pt) (s : Side)
    (h : buildSide dist sA sL vertices center ci cj pA pB = .ok s) :
    s.vertices.head? = some pA ∧ s.vertices.getLast? = some pB := by
  unfold buildSide at h
  dsimp only at h
  cases hm : merge_close_points dist (ramer_douglas_peucker (slice vertices ci cj) (1/4)) (7/4) with
  | nil => rw [hm] at h; exact absurd h (by simp)
  | cons v0 rest =>
    rw [hm] at h
    dsimp only at h
    rw [Except.ok.injEq] at h
    subst h
    dsimp only [mkSide]
    by_cases hA : v0 ≠ pA
    · rw [if_pos hA]
      by_cases hB : (pA :: v0 :: rest).getLastD pA ≠ pB
      · rw [if_pos hB]
        exact ⟨by simp, List.getLast?_concat _⟩
      · rw [if_neg hB]
        push_neg at hB
        exact ⟨by simp, getLast?_of_getLastD (by simp) hB⟩
    · rw [if_neg hA]
      push_neg at hA
      by_cases hB : (v0 :: rest).getLastD pA ≠ pB
      · rw [if_pos hB]
        exact ⟨by simp [hA], List.getLast?_concat _⟩
      · rw [if_neg hB]
        push_neg at hB
        exact ⟨by simp [hA], getLast?_of_getLastD (by simp) hB⟩

/-- C6: whenever `extract_four_sides` returns without raising, the piece
holds exactly four sides, and side `i` runs from corner `i` to corner
`(i+1) mod 4`: its first vertex is that opening corner and its last vertex
that closing corner. -/
theorem c6_sides_endpoints (dist : Pt → Pt → ℚ) (sA sL : List Pt → ℚ)
    (dseg : Pt × Pt → Pt × Pt → ℚ) (vertices : List Pt) (center : Pt)
    (cIdx : Fin 4 → Int) (corners : Fin 4 → Pt) (sides : List Side)
    (h : extract_four_sides dist sA sL dseg vertices center cIdx corners = .ok sides) :
    sides.length = 4 ∧ ∀ i : Fin 4, ∃ s, sides.get? (i : Nat) = some s ∧
      s.vertices.head? = some (corners i) ∧ s.vertices.getLast? = some (corners (i + 1)) := by
  unfold extract_four_sides at h
  simp only [bind, Except.bind] at h
  cases h0 : buildSide dist sA sL vertices center (cIdx 0) (cIdx 1) (corners 0) (corners 1) with
  | error e => rw [h0] at h; exact absurd h (by simp)
  | ok s0 =>
  rw [h0] at h
  cases h1 : buildSide dist sA sL vertices center (cIdx 1) (cIdx 2) (corners 1) (corners 2) with
  | error e => rw [h1] at h; exact absurd h (by simp)
  | ok s1 =>
  rw [h1] at h
  cases h2 : buildSide dist sA sL vertices center (cIdx 2) (cIdx 3) (corners 2) (corners 3) with
  | error e => rw [h2] at h; exact absurd h (by simp)
  | ok s2 =>
  rw [h2] at h
  cases h3 : buildSide dist sA sL vertices center (cIdx 3) (cIdx 0) (corners 3) (corners 0) with
  | error e => rw [h3] at h; exact absurd h (by simp)
  | ok s3 =>
  rw [h3] at h
  dsimp only at h
  cases hv : validate_sides dseg [s0, s1, s2, s3] with
  | error e => rw [hv] at h; exact absurd h (by simp)
  | ok u =>
  rw [hv] at h
  rw [Except.ok.injEq] at h
  subst h
  refine ⟨rfl, ?_⟩
  intro i
  fin_cases i
  · exact ⟨s0, rfl, (buildSide_ok_endpoints _ _ _ _ _ _ _ _ _ _ h0).1,
      (buildSide_ok_endpoints _ _ _ _ _ _ _ _ _ _ h0).2⟩
  · exact ⟨s1, rfl, (buildSide_ok_endpoints _ _ _ _ _ _ _ _ _ _ h1).1,
      (buildSide_ok_endpoints _ _ _ _ _ _ _ _ _ _ h1).2⟩
  · exact ⟨s2, rfl, (buildSide_ok_endpoints _ _ _ _ _ _ _ _ _ _ h2).1,
      (buildSide_ok_endpoints _ _ _ _ _ _ _ _ _ _ h2).2⟩
  · exact ⟨s3, rfl, (buildSide_ok_endpoints _ _ _ _ _ _ _ _ _ _ h3).1,
      (buildSide_ok_endpoints _ _ _ _ _ _ _ _ _ _ h3).2⟩

/-- C6 witness: a full concrete run of `extract_four_sides` that returns
`wSides`, with the invariant evaluated on it. -/
theorem c6_sides_endpoints_witness :
    extract_four_sides dist2c angle0 len1 dseg1 wVerts (0, 0) wIdx wCorners = .ok wSides ∧
    (wSides.length = 4 ∧ ∀ i : Fin 4, ∃ s, wSides.get? (i : Nat) = some s ∧
      s.vertices.head? = some (wCorners i) ∧ s.vertices.getLast? = some (wCorners (i + 1))) :=
  ⟨by with_unfolding_all decide,
    c6_sides_endpoints dist2c angle0 len1 dseg1 wVerts (0, 0) wIdx wCorners wSides
      (by with_unfolding_all decide)⟩

/-! ## Spoke-angle candidate guards -/

/-- A candidate the generator emits at loop index `j` carries index `j`. -/
theorem spoke_candidate_i (o : GeomFns) (vertices : List Pt) (centroid : Pt)
    (j : Nat) (c : Candidate) (h : spoke_candidate o vertices centroid j = some c) :
    c.i = j := by
  unfold spoke_candidate at h
  dsimp only at h
  split_ifs at h with h1 h2 h3
  rw [Option.some.injEq] at h
  rw [← h]

/-- C7: the generator emits a candidate at boundary index `i` exactly when
all three guards hold there: the mean tangent-fit dispersion does not exceed
0.2, the interior angle of the two projected tangent points is within 50
degrees of 90 degrees, and the angular offset between the opening direction
and the direction to the centroid is strictly less than half the interior
angle. -/
theorem c7_spoke_guards (o : GeomFns) (vertices : List Pt) (centroid : Pt) (i : Nat)
    (hi : i < vertices.length) :
    (∃ c ∈ find_corner_candidates_by_spoke_angles o vertices centroid, c.i = i) ↔
      ((spoke_measure o vertices centroid i).1 ≤ 1/5 ∧
       |mathPi / 2 - (spoke_measure o vertices centroid i).2.1| < 50 * mathPi / 180 ∧
       (spoke_measure o vertices centroid i).2.2 < (spoke_measure o vertices centroid i).2.1 / 2) := by
  unfold find_corner_candidates_by_spoke_angles
  constructor
  · rintro ⟨c, hc, hci⟩
    rcases List.mem_filterMap.mp hc with ⟨j, _, hcj⟩
    have hji : j = i := by rw [← hci, spoke_candidate_i o vertices centroid j c hcj]
    subst hji
    unfold spoke_candidate at hcj
    dsimp only at hcj
    split_ifs at hcj with h1 h2 h3
    exact ⟨not_lt.mp h1, h2, h3⟩
  · rintro ⟨g1, g2, g3⟩
    refine ⟨⟨vertices.getD i (0, 0), i,
      (spoke_measure o vertices centroid i).2.1, (spoke_measure o vertices centroid i).2.2⟩,
      List.mem_filterMap.mpr ⟨i, List.mem_range.mpr hi, ?_⟩, rfl⟩
    unfold spoke_candidate
    dsimp only
    rw [if_neg (not_lt.mpr g1), if_neg (not_not_intro g2), if_pos g3]

/-- C7 witness: under the oracle `o0` all three guards hold at index 0 of a
one-vertex loop, and a candidate is emitted there. -/
theorem c7_spoke_guards_witness :
    ∃ c ∈ find_corner_candidates_by_spoke_angles o0 [(0, 0)] (5, 5), c.i = 0 :=
  (c7_spoke_guards o0 [(0, 0)] (5, 5) 0 (by decide)).mpr (by with_unfolding_all decide)

/-! ## The boundary walk: counterexamples on concrete grids -/

/-- C4 counterexample: on `g4` - a closed, simply connected foreground block
away from the image boundary - the walk closes, but the vertex list holds
one entry more than the border mask holds 1-pixels (the start pixel is
appended twice, once at initialisation and once by the first step), and its
last vertex is the pixel before the start, not the start. -/
theorem c4_vertex_count_mismatch :
    vectorize g4 40 = .ok c4loop ∧ c4loop.length = borderCount g4 + 1 ∧
      c4loop.head? ≠ c4loop.getLast? := by decide

/-- C5 counterexample: `gU` holds a foreground pixel in row 0 and a non-empty
border mask, yet `vectorize` neither raises the stuck exception nor any
other error: its U-shaped open border is walked out and retraced back to the
start, and the function returns normally. -/
theorem c5_border_touching_succeeds :
    pixelAt gU 0 1 ≠ 0 ∧ borderCount gU ≠ 0 ∧
      vectorize gU 40 = .ok [(1, 1), (1, 1), (2, 2), (3, 1), (3, 2), (2, 2), (1, 2)] := by
  decide

/-! ## The boundary walk: general invariants -/

/-- Python indexing at a nonnegative in-range index is plain list indexing. -/
theorem pyIndex_nonneg {α : Type} (l : List α) (i : Int) (h0 : 0 ≤ i) :
    pyIndex l i = l.get? i.toNat := by
  unfold pyIndex
  dsimp only
  rw [if_neg (not_lt.mpr h0), if_pos h0]

/-- Reading the built border mask inside the grid rectangle never raises and
yields the flag value. -/
theorem borderVal_eq (g : Grid) (x y : Int) (hx0 : 0 ≤ x) (hxw : x < (g.width : Int))
    (hy0 : 0 ≤ y) (hyh : y < (g.height : Int)) :
    borderVal (find_border_raster g) x y = some (borderFlag g y.toNat x.toNat) := by
  have hyn : y.toNat < g.height := by omega
  have hxn : x.toNat < g.width := by omega
  have hrow : (find_border_raster g).get? y.toNat =
      some ((List.range g.width).map fun x => borderFlag g y.toNat x) := by
    unfold find_border_raster
    rw [List.get?_eq_getElem?, List.getElem?_map, List.getElem?_range hyn]
    rfl
  unfold borderVal
  rw [pyIndex_nonneg _ y hy0, hrow]
  simp only [Option.some_bind]
  rw [pyIndex_nonneg _ x hx0, List.get?_eq_getElem?, List.getElem?_map,
    List.getElem?_range hxn]
  rfl

/-- A set border flag forces strict interiority of its coordinates. -/
theorem borderFlag_interior (g : Grid) (y x : Nat) (h : borderFlag g y x = 1) :
    1 ≤ y ∧ y + 1 < g.height ∧ 1 ≤ x ∧ x + 1 < g.width := by
  unfold borderFlag at h
  split_ifs at h with hc
  exact ⟨hc.1, hc.2.1, hc.2.2.1, hc.2.2.2.1⟩

/-- An interior border pixel reads back as 1. -/
theorem interiorPos_borderVal (g : Grid) (p : Px) (h : interiorPos g p) :
    borderVal (find_border_raster g) p.1 p.2 = some 1 := by
  obtain ⟨h1, h2, h3, h4, h5⟩ := h
  rw [borderVal_eq g p.1 p.2 (by omega) (by omega) (by omega) (by omega), h5]

/-- A coordinate inside the rectangle whose mask reads 1 is interior. -/
theorem borderVal_one_interiorPos (g : Grid) (p : Px) (h0 : 0 ≤ p.1)
    (h1 : p.1 < (g.width : Int)) (h2 : 0 ≤ p.2) (h3 : p.2 < (g.height : Int))
    (hb : borderVal (find_border_raster g) p.1 p.2 = some 1) : interiorPos g p := by
  rw [borderVal_eq g p.1 p.2 h0 h1 h2 h3, Option.some.injEq] at hb
  have h5 := borderFlag_interior g p.2.toNat p.1.toNat hb
  exact ⟨by omega, by omega, by omega, by omega, hb⟩

/-- Every listed neighbour offset is a king move. -/
theorem offsets_small : ∀ k, k < 8 → |(neighborOffsets.getD k (0, 0)).1| ≤ 1 ∧
    |(neighborOffsets.getD k (0, 0)).2| ≤ 1 := by decide

/-- The sweep order only ever holds indices below 8. -/
theorem scanKs_lt (shift : Int) : ∀ k ∈ scanKs shift, k < 8 := by
  intro k hk
  unfold scanKs at hk
  rcases List.mem_map.mp hk with ⟨i, _, rfl⟩
  have h1 : (0 : Int) ≤ (shift + (i : Int)) % 8 := Int.emod_nonneg _ (by norm_num)
  have h2 : (shift + (i : Int)) % 8 < 8 := Int.emod_lt_of_pos _ (by norm_num)
  omega

/-- Every scan error is the `IndexError` case. -/
theorem scanGo_error (b : List (List Nat)) (cx cy : Int) :
    ∀ (ks : List Nat) (e : WErr), scanGo b cx cy ks = .error e → e = .indexErr := by
  intro ks
  induction ks with
  | nil => intro e h; simp [scanGo] at h
  | cons k rest ih =>
    intro e h
    unfold scanGo at h
    dsimp only at h
    cases hbv : borderVal b (cx + (neighborOffsets.getD k (0, 0)).1)
        (cy + (neighborOffsets.getD k (0, 0)).2) with
    | none =>
      rw [hbv] at h
      dsimp only at h
      rw [Except.error.injEq] at h
      exact h.symm
    | some n =>
      rw [hbv] at h
      dsimp only at h
      split_ifs at h with hn
      exact ih e h

/-- From an interior pixel, the neighbour sweep never reads out of range, and
any move it finds lands on another interior border pixel one king move away. -/
theorem scanGo_props (g : Grid) (cx cy : Int) (hp : interiorPos g (cx, cy)) :
    ∀ ks : List Nat, (∀ k ∈ ks, k < 8) →
      scanGo (find_border_raster g) cx cy ks ≠ .error .indexErr ∧
      ∀ nx ny d2, scanGo (find_border_raster g) cx cy ks = .ok (some ((nx, ny), d2)) →
        interiorPos g (nx, ny) ∧ adjacent (cx, cy) (nx, ny) := by
  intro ks
  induction ks with
  | nil =>
    intro _
    constructor
    · intro hc
      simp only [scanGo] at hc
      cases hc
    · intro nx ny d2 hc
      simp only [scanGo] at hc
      cases hc
  | cons k rest ih =>
    intro hks
    have hk8 : k < 8 := hks k (List.mem_cons_self k rest)
    have hoff := offsets_small k hk8
    obtain ⟨hox1, hox2⟩ := abs_le.mp hoff.1
    obtain ⟨hoy1, hoy2⟩ := abs_le.mp hoff.2
    obtain ⟨hx1, hx2, hy1, hy2, hflag⟩ := hp
    dsimp only at hx1 hx2 hy1 hy2 hflag
    have hval := borderVal_eq g (cx + (neighborOffsets.getD k (0, 0)).1)
      (cy + (neighborOffsets.getD k (0, 0)).2)
      (by omega) (by omega) (by omega) (by omega)
    unfold scanGo
    dsimp only
    rw [hval]
    dsimp only
    by_cases h1 : borderFlag g (cy + (neighborOffsets.getD k (0, 0)).2).toNat
        (cx + (neighborOffsets.getD k (0, 0)).1).toNat = 1
    · rw [if_pos h1]
      refine ⟨by simp, ?_⟩
      intro nx ny d2 h
      rw [Except.ok.injEq, Option.some.injEq] at h
      injection h with hA hB
      injection hA with hA1 hA2
      subst hA1
      subst hA2
      constructor
      · refine borderVal_one_interiorPos g
          (cx + (neighborOffsets.getD k (0, 0)).1, cy + (neighborOffsets.getD k (0, 0)).2)
          ?_ ?_ ?_ ?_ ?_ <;> dsimp only
        · omega
        · omega
        · omega
        · omega
        · rw [hval, h1]
      · refine ⟨?_, ?_⟩ <;> dsimp only <;> rw [abs_le] <;> exact ⟨by omega, by omega⟩
    · rw [if_neg h1]
      exact ih (fun k2 hk2 => hks k2 (List.mem_cons_of_mem _ hk2))

/-- C5 (amended, part 1): the walk never reads outside the border mask: from
an interior pixel every neighbour probe stays inside the grid rectangle, and
the walk only ever stands on interior border pixels. -/
theorem walk_no_indexErr (g : Grid) (sx sy : Int) :
    ∀ (fuel : Nat) (cx cy d : Int) (acc : List Px), interiorPos g (cx, cy) →
      walk (find_border_raster g) sx sy fuel cx cy d acc ≠ .error .indexErr := by
  intro fuel
  induction fuel with
  | zero => intro cx cy d acc _; simp [walk]
  | succ n ih =>
    intro cx cy d acc hp
    have hprops := scanGo_props g cx cy hp (scanKs d) (scanKs_lt d)
    unfold walk
    cases hscan : scanGo (find_border_raster g) cx cy (scanKs d) with
    | error e =>
      have he : e = .indexErr := scanGo_error _ _ _ _ _ hscan
      subst he
      exact absurd hscan hprops.1
    | ok v =>
      cases v with
      | none => simp
      | some m =>
        obtain ⟨⟨nx, ny⟩, d2⟩ := m
        have hmove := hprops.2 nx ny d2 hscan
        dsimp only
        split_ifs with hcl
        · simp
        · exact ih nx ny d2 (acc ++ [(cx, cy)]) hmove.1

/-- The first 1 of a row really reads 1. -/
theorem firstOne_get (row : List Nat) : ∀ (x : Nat), firstOne row = some x →
    row.get? x = some 1 := by
  induction row with
  | nil => intro x h; simp [firstOne] at h
  | cons v rest ih =>
    intro x h
    unfold firstOne at h
    split_ifs at h with hv
    · rw [Option.some.injEq] at h
      subst h
      simp [hv]
    · cases hrec : firstOne rest with
      | none => rw [hrec] at h; simp at h
      | some x0 =>
        rw [hrec] at h
        simp only [Option.map_some', Option.some.injEq] at h
        subst h
        simpa using ih x0 hrec

/-- What a successful start search pins down: the found coordinate reads 1 in
the searched rows. -/
theorem findStart_entry : ∀ (b : List (List Nat)) (y0 x y : Nat),
    findStart b y0 = some (x, y) →
    y0 ≤ y ∧ ∃ row, b.get? (y - y0) = some row ∧ row.get? x = some 1 := by
  intro b
  induction b with
  | nil => intro y0 x y h; simp [findStart] at h
  | cons row rest ih =>
    intro y0 x y h
    unfold findStart at h
    cases hf : firstOne row with
    | some x0 =>
      rw [hf] at h
      rw [Option.some.injEq] at h
      injection h with h1 h2
      subst h1
      subst h2
      exact ⟨le_refl _, row, by simp, firstOne_get row x0 hf⟩
    | none =>
      rw [hf] at h
      obtain ⟨hy, row2, hrow, hone⟩ := ih (y0 + 1) x y h
      refine ⟨by omega, row2, ?_, hone⟩
      have hstep : y - y0 = (y - (y0 + 1)) + 1 := by omega
      rw [hstep]
      simpa using hrow

/-- The start pixel `vectorize` picks is an interior border pixel. -/
theorem findStart_interiorPos (g : Grid) (x y : Nat)
    (h : findStart (find_border_raster g) 0 = some (x, y)) :
    interiorPos g ((x : Int), (y : Int)) := by
  obtain ⟨-, row, hrow, hone⟩ := findStart_entry (find_border_raster g) 0 x y h
  rw [Nat.sub_zero] at hrow
  have hlen : (find_border_raster g).length = g.height := by
    simp [find_border_raster]
  have hyb : y < g.height := by
    by_contra hge
    rw [List.get?_eq_none.mpr (by omega)] at hrow
    exact absurd hrow (by simp)
  have hrow2 : row = (List.range g.width).map fun x => borderFlag g y x := by
    unfold find_border_raster at hrow
    rw [List.get?_eq_getElem?, List.getElem?_map, List.getElem?_range hyb] at hrow
    simpa using hrow.symm
  subst hrow2
  have hxb : x < g.width := by
    by_contra hge
    rw [List.get?_eq_none.mpr (by simpa using (by omega : g.width ≤ x))] at hone
    exact absurd hone (by simp)
  rw [List.get?_eq_getElem?, List.getElem?_map, List.getElem?_range hxb] at hone
  simp only [Option.map_some', Option.some.injEq] at hone
  have hint := borderFlag_interior g y x hone
  refine ⟨by omega, by omega, by omega, by omega, ?_⟩
  simpa using hone

/-- C5 (amended): `vectorize` never raises an out-of-range index error, on
any grid - the start pixel and every pixel the walk stands on is interior,
so all eight neighbour probes stay inside the border mask. A border-touching
silhouette does not always end in the stuck error, however: see
`c5_border_touching_succeeds`. -/
theorem c5_no_index_error (g : Grid) (fuel : Nat) :
    vectorize g fuel ≠ .error .indexErr := by
  unfold vectorize
  dsimp only
  cases hs : findStart (find_border_raster g) 0 with
  | none => simp
  | some p =>
    obtain ⟨x, y⟩ := p
    exact walk_no_indexErr g x y fuel x y 0 _ (findStart_interiorPos g x y hs)

/-- The closing invariant of the walk: a successful run extends the
accumulated vertex list (which already chains by king moves onto the current
pixel) into the returned list, every returned vertex is an interior border
pixel, and the returned list chains by king moves all the way back onto the
start pixel - the move that ends the loop lands on the start. -/
theorem walk_ok_props (g : Grid) (sx sy : Int) :
    ∀ (fuel : Nat) (cx cy d : Int) (acc vs : List Px),
      walk (find_border_raster g) sx sy fuel cx cy d acc = .ok vs →
      interiorPos g (cx, cy) →
      (∀ v ∈ acc, interiorPos g v) →
      List.Chain' adjacent (acc ++ [(cx, cy)]) →
      ((acc ++ [(cx, cy)]) <+: vs ∧ (∀ v ∈ vs, interiorPos g v) ∧
        List.Chain' adjacent (vs ++ [(sx, sy)])) := by
  intro fuel
  induction fuel with
  | zero => intro cx cy d acc vs h _ _ _; simp [walk] at h
  | succ n ih =>
    intro cx cy d acc vs h hp hacc hchain
    have hprops := scanGo_props g cx cy hp (scanKs d) (scanKs_lt d)
    unfold walk at h
    cases hscan : scanGo (find_border_raster g) cx cy (scanKs d) with
    | error e => rw [hscan] at h; exact absurd h (by simp)
    | ok v =>
      rw [hscan] at h
      cases v with
      | none => exact absurd h (by simp)
      | some m =>
        obtain ⟨⟨nx, ny⟩, d2⟩ := m
        dsimp only at h
        have hmove := hprops.2 nx ny d2 hscan
        by_cases hcl : nx = sx ∧ ny = sy
        · rw [if_pos hcl, Except.ok.injEq] at h
          subst h
          obtain ⟨rfl, rfl⟩ := hcl
          refine ⟨List.prefix_refl _, ?_, ?_⟩
          · intro v hv
            rcases List.mem_append.mp hv with hv | hv
            · exact hacc v hv
            · simp only [List.mem_singleton] at hv
              subst hv
              exact hp
          · rw [List.chain'_append]
            refine ⟨hchain, by simp, ?_⟩
            intro a ha b hb
            rw [List.getLast?_concat] at ha
            simp only [List.head?_cons, Option.mem_def, Option.some.injEq] at ha hb
            subst ha
            subst hb
            exact hmove.2
        · rw [if_neg hcl] at h
          have hlink : List.Chain' adjacent ((acc ++ [(cx, cy)]) ++ [(nx, ny)]) := by
            rw [List.chain'_append]
            refine ⟨hchain, by simp, ?_⟩
            intro a ha b hb
            rw [List.getLast?_concat] at ha
            simp only [List.head?_cons, Option.mem_def, Option.some.injEq] at ha hb
            subst ha
            subst hb
            exact hmove.2
          have haccall : ∀ v ∈ acc ++ [(cx, cy)], interiorPos g v := by
            intro v hv
            rcases List.mem_append.mp hv with hv | hv
            · exact hacc v hv
            · simp only [List.mem_singleton] at hv
              subst hv
              exact hp
          obtain ⟨hpre, hall, hch⟩ :=
            ih nx ny d2 (acc ++ [(cx, cy)]) vs h hmove.1 haccall hlink
          exact ⟨(List.prefix_append _ _).trans hpre, hall, hch⟩

/-- C4 (amended): whenever `vectorize` returns, the walk has closed back onto
its starting border pixel: the vertex list begins with that start pixel
listed twice (the initial entry, then the first step appending the position
it left), every vertex is a border-mask pixel, consecutive vertices are king
moves apart, and the final vertex is one king move from the start (the
closing move lands on the start, which is not itself appended again).
The list length is the number of walk steps plus one, which can exceed the
border-mask pixel count: see `c4_vertex_count_mismatch`. -/
theorem c4_walk_closure (g : Grid) (fuel : Nat) (vs : List Px)
    (h : vectorize g fuel = .ok vs) :
    ∃ s : Nat × Nat, findStart (find_border_raster g) 0 = some s ∧
      vs.take 2 = [((s.1 : Int), (s.2 : Int)), ((s.1 : Int), (s.2 : Int))] ∧
      (∀ v ∈ vs, borderVal (find_border_raster g) v.1 v.2 = some 1) ∧
      List.Chain' adjacent (vs ++ [((s.1 : Int), (s.2 : Int))]) := by
  unfold vectorize at h
  dsimp only at h
  cases hs : findStart (find_border_raster g) 0 with
  | none => rw [hs] at h; exact absurd h (by simp)
  | some p =>
    obtain ⟨x, y⟩ := p
    rw [hs] at h
    have hp := findStart_interiorPos g x y hs
    have hchain0 : List.Chain' adjacent
        ([((x : Int), (y : Int))] ++ [((x : Int), (y : Int))]) := by
      simp [List.chain'_cons, adjacent]
    obtain ⟨hpre, hall, hch⟩ := walk_ok_props g x y fuel x y 0
      [((x : Int), (y : Int))] vs h hp
      (by intro v hv; simp only [List.mem_singleton] at hv; subst hv; exact hp) hchain0
    refine ⟨(x, y), rfl, ?_, ?_, hch⟩
    · rcases hpre with ⟨t, ht⟩
      rw [← ht]
      rfl
    · intro v hv
      exact interiorPos_borderVal g v (hall v hv)

/-- C4 witness: the closure invariant evaluated on the concrete run on `g4`. -/
theorem c4_walk_closure_witness :
    vectorize g4 40 = .ok c4loop ∧
    (∃ s : Nat × Nat, findStart (find_border_raster g4) 0 = some s ∧
      c4loop.take 2 = [((s.1 : Int), (s.2 : Int)), ((s.1 : Int), (s.2 : Int))] ∧
      (∀ v ∈ c4loop, borderVal (find_border_raster g4) v.1 v.2 = some 1) ∧
      List.Chain' adjacent (c4loop ++ [((s.1 : Int), (s.2 : Int))])) :=
  ⟨by decide, c4_walk_closure g4 40 c4loop (by decide)⟩

end Puzzle
